import Mathlib

/-!
Verification of the murky Merkle-tree library.

The Rust source (src/lib.rs) computes a binary Merkle tree over a list of
string leaves.  Each leaf is hashed with Keccak-256 (tiny_keccak, Keccak::v256);
levels are then reduced pairwise, duplicating an unpaired trailing digest,
until a single root digest remains; the accumulated levels (built leaf-first)
are reversed so that index 0 is the root level.

The embedding below models bytes as `Nat` (each < 256), digests as `List Nat`
of length 32, levels as lists of digests, and the fallible Rust indexing in
`root_hash` as an `Option`-returning function.  The Keccak-256 permutation and
sponge are embedded from the Keccak specification used by tiny_keccak
(rate 136 bytes, multi-rate padding with domain byte 0x01); the permutation
state is a structure of 25 named 64-bit lanes, each kept below 2 ^ 64, with
lane (x, y) of the Keccak state array stored in field `a<x><y>`.
-/

set_option maxRecDepth 4000000

/-- Rotate a 64-bit lane (a `Nat` below `2 ^ 64`) left by `n` bits. -/
def rotl64 (x n : Nat) : Nat :=
  ((x <<< n) % 2 ^ 64) ||| (x >>> (64 - n))

/-- The 24 round constants of Keccak-f[1600]. -/
def keccakRC : List Nat :=
  [0x0000000000000001, 0x0000000000008082, 0x800000000000808a, 0x8000000080008000,
   0x000000000000808b, 0x0000000080000001, 0x8000000080008081, 0x8000000000008009,
   0x000000000000008a, 0x0000000000000088, 0x0000000080008009, 0x000000008000000a,
   0x000000008000808b, 0x800000000000008b, 0x8000000000008089, 0x8000000000008003,
   0x8000000000008002, 0x8000000000000080, 0x000000000000800a, 0x800000008000000a,
   0x8000000080008081, 0x8000000000008080, 0x0000000080000001, 0x8000000080008008]

/-- The all-ones 64-bit mask; XOR with it is bitwise complement on lanes. -/
def mask64 : Nat := 2 ^ 64 - 1

/-- The 5 x 5 lane array of Keccak-f[1600]; field `a<x><y>` is lane (x, y). -/
structure KeccakState where
  a00 : Nat
  a10 : Nat
  a20 : Nat
  a30 : Nat
  a40 : Nat
  a01 : Nat
  a11 : Nat
  a21 : Nat
  a31 : Nat
  a41 : Nat
  a02 : Nat
  a12 : Nat
  a22 : Nat
  a32 : Nat
  a42 : Nat
  a03 : Nat
  a13 : Nat
  a23 : Nat
  a33 : Nat
  a43 : Nat
  a04 : Nat
  a14 : Nat
  a24 : Nat
  a34 : Nat
  a44 : Nat

/-- One round of Keccak-f[1600]: theta (column parities `c`, differences `d`),
rho and pi (each lane (x, y) receives lane ((x + 3y) mod 5, x) rotated by its
fixed rho offset, unrolled below as the `b` bindings), chi (each lane XORed
with the AND of the complement of its first row neighbour and its second row
neighbour), then iota (XOR of the round constant into lane (0, 0)). -/
def keccakRound (s : KeccakState) (rc : Nat) : KeccakState :=
  let c0 := s.a00 ^^^ s.a01 ^^^ s.a02 ^^^ s.a03 ^^^ s.a04
  let c1 := s.a10 ^^^ s.a11 ^^^ s.a12 ^^^ s.a13 ^^^ s.a14
  let c2 := s.a20 ^^^ s.a21 ^^^ s.a22 ^^^ s.a23 ^^^ s.a24
  let c3 := s.a30 ^^^ s.a31 ^^^ s.a32 ^^^ s.a33 ^^^ s.a34
  let c4 := s.a40 ^^^ s.a41 ^^^ s.a42 ^^^ s.a43 ^^^ s.a44
  let d0 := c4 ^^^ rotl64 c1 1
  let d1 := c0 ^^^ rotl64 c2 1
  let d2 := c1 ^^^ rotl64 c3 1
  let d3 := c2 ^^^ rotl64 c4 1
  let d4 := c3 ^^^ rotl64 c0 1
  let b00 := s.a00 ^^^ d0
  let b10 := rotl64 (s.a11 ^^^ d1) 44
  let b20 := rotl64 (s.a22 ^^^ d2) 43
  let b30 := rotl64 (s.a33 ^^^ d3) 21
  let b40 := rotl64 (s.a44 ^^^ d4) 14
  let b01 := rotl64 (s.a30 ^^^ d3) 28
  let b11 := rotl64 (s.a41 ^^^ d4) 20
  let b21 := rotl64 (s.a02 ^^^ d0) 3
  let b31 := rotl64 (s.a13 ^^^ d1) 45
  let b41 := rotl64 (s.a24 ^^^ d2) 61
  let b02 := rotl64 (s.a10 ^^^ d1) 1
  let b12 := rotl64 (s.a21 ^^^ d2) 6
  let b22 := rotl64 (s.a32 ^^^ d3) 25
  let b32 := rotl64 (s.a43 ^^^ d4) 8
  let b42 := rotl64 (s.a04 ^^^ d0) 18
  let b03 := rotl64 (s.a40 ^^^ d4) 27
  let b13 := rotl64 (s.a01 ^^^ d0) 36
  let b23 := rotl64 (s.a12 ^^^ d1) 10
  let b33 := rotl64 (s.a23 ^^^ d2) 15
  let b43 := rotl64 (s.a34 ^^^ d3) 56
  let b04 := rotl64 (s.a20 ^^^ d2) 62
  let b14 := rotl64 (s.a31 ^^^ d3) 55
  let b24 := rotl64 (s.a42 ^^^ d4) 39
  let b34 := rotl64 (s.a03 ^^^ d0) 41
  let b44 := rotl64 (s.a14 ^^^ d1) 2
  ⟨(b00 ^^^ ((b10 ^^^ mask64) &&& b20)) ^^^ rc,
   b10 ^^^ ((b20 ^^^ mask64) &&& b30),
   b20 ^^^ ((b30 ^^^ mask64) &&& b40),
   b30 ^^^ ((b40 ^^^ mask64) &&& b00),
   b40 ^^^ ((b00 ^^^ mask64) &&& b10),
   b01 ^^^ ((b11 ^^^ mask64) &&& b21),
   b11 ^^^ ((b21 ^^^ mask64) &&& b31),
   b21 ^^^ ((b31 ^^^ mask64) &&& b41),
   b31 ^^^ ((b41 ^^^ mask64) &&& b01),
   b41 ^^^ ((b01 ^^^ mask64) &&& b11),
   b02 ^^^ ((b12 ^^^ mask64) &&& b22),
   b12 ^^^ ((b22 ^^^ mask64) &&& b32),
   b22 ^^^ ((b32 ^^^ mask64) &&& b42),
   b32 ^^^ ((b42 ^^^ mask64) &&& b02),
   b42 ^^^ ((b02 ^^^ mask64) &&& b12),
   b03 ^^^ ((b13 ^^^ mask64) &&& b23),
   b13 ^^^ ((b23 ^^^ mask64) &&& b33),
   b23 ^^^ ((b33 ^^^ mask64) &&& b43),
   b33 ^^^ ((b43 ^^^ mask64) &&& b03),
   b43 ^^^ ((b03 ^^^ mask64) &&& b13),
   b04 ^^^ ((b14 ^^^ mask64) &&& b24),
   b14 ^^^ ((b24 ^^^ mask64) &&& b34),
   b24 ^^^ ((b34 ^^^ mask64) &&& b44),
   b34 ^^^ ((b44 ^^^ mask64) &&& b04),
   b44 ^^^ ((b04 ^^^ mask64) &&& b14)⟩

/-- The full Keccak-f[1600] permutation: 24 rounds. -/
def keccakF (s : KeccakState) : KeccakState :=
  keccakRC.foldl keccakRound s

/-- Interpret up to eight bytes as one little-endian 64-bit lane. -/
def bytesToLane (bytes : List Nat) : Nat :=
  bytes.foldr (fun b acc => acc * 256 + b) 0

/-- Serialize the low `k` bytes of a lane, little-endian. -/
def laneToBytes : Nat → Nat → List Nat
  | 0, _ => []
  | k + 1, v => v % 256 :: laneToBytes k (v / 256)

/-- Lane `j` of a 136-byte rate block, little-endian. -/
def blockLane (block : List Nat) (j : Nat) : Nat :=
  bytesToLane ((block.drop (8 * j)).take 8)

/-- Absorb one 136-byte block: XOR its 17 lanes into the first 17 lanes of the
state (lane order a00, a10, ..., a40, a01, ..., a13) and permute. -/
def absorbBlock (s : KeccakState) (block : List Nat) : KeccakState :=
  keccakF ⟨s.a00 ^^^ blockLane block 0, s.a10 ^^^ blockLane block 1,
    s.a20 ^^^ blockLane block 2, s.a30 ^^^ blockLane block 3,
    s.a40 ^^^ blockLane block 4, s.a01 ^^^ blockLane block 5,
    s.a11 ^^^ blockLane block 6, s.a21 ^^^ blockLane block 7,
    s.a31 ^^^ blockLane block 8, s.a41 ^^^ blockLane block 9,
    s.a02 ^^^ blockLane block 10, s.a12 ^^^ blockLane block 11,
    s.a22 ^^^ blockLane block 12, s.a32 ^^^ blockLane block 13,
    s.a42 ^^^ blockLane block 14, s.a03 ^^^ blockLane block 15,
    s.a13 ^^^ blockLane block 16, s.a23, s.a33, s.a43,
    s.a04, s.a14, s.a24, s.a34, s.a44⟩

/-- Absorb a padded message block by block.  The first argument is fuel; any
fuel at least the message length makes the recursion run to completion since
every step consumes 136 bytes. -/
def absorb : Nat → KeccakState → List Nat → KeccakState
  | 0, s, _ => s
  | fuel + 1, s, msg =>
    if msg = [] then s
    else absorb fuel (absorbBlock s (msg.take 136)) (msg.drop 136)

/-- Multi-rate padding at rate 136 with the Keccak domain byte 0x01: append
0x01, zero or more zero bytes, and a final 0x80 (a single 0x81 byte when only
one byte of room remains). -/
def padMessage (msg : List Nat) : List Nat :=
  let r := 136 - msg.length % 136
  if r = 1 then msg ++ [0x81]
  else msg ++ 0x01 :: List.replicate (r - 2) 0 ++ [0x80]

/-- The all-zero initial sponge state. -/
def initState : KeccakState :=
  ⟨0, 0, 0, 0, 0, 0, 0, 0, 0, 0, 0, 0, 0, 0, 0, 0, 0, 0, 0, 0, 0, 0, 0, 0, 0⟩

/-- Keccak-256 of a byte sequence: absorb the padded message into the all-zero
state and squeeze the first 32 bytes (four lanes, little-endian).  This embeds
the `keccak` helper of src/lib.rs (which delegates to tiny_keccak
`Keccak::v256`). -/
def keccak (msg : List Nat) : List Nat :=
  let s := absorb (msg.length + 136) initState (padMessage msg)
  laneToBytes 8 s.a00 ++ laneToBytes 8 s.a10 ++
    laneToBytes 8 s.a20 ++ laneToBytes 8 s.a30

/-- UTF-8 encoding of one Unicode scalar value, as byte values. -/
def utf8EncodeChar (c : Char) : List Nat :=
  let n := c.toNat
  if n < 0x80 then [n]
  else if n < 0x800 then [0xc0 ||| (n >>> 6), 0x80 ||| (n &&& 0x3f)]
  else if n < 0x10000 then
    [0xe0 ||| (n >>> 12), 0x80 ||| ((n >>> 6) &&& 0x3f), 0x80 ||| (n &&& 0x3f)]
  else
    [0xf0 ||| (n >>> 18), 0x80 ||| ((n >>> 12) &&& 0x3f),
     0x80 ||| ((n >>> 6) &&& 0x3f), 0x80 ||| (n &&& 0x3f)]

/-- UTF-8 byte encoding of a string, mirroring Rust `str::as_bytes`. -/
def utf8Bytes (s : String) : List Nat :=
  s.data.flatMap utf8EncodeChar

/-- One reduction step of the loop body in `build` (src/lib.rs lines 36-52):
consecutive non-overlapping pairs are combined left to right as
`keccak (a ++ b)` (the `chunks_exact(2)` loop), and a single unpaired trailing
digest is combined with itself (the `remainder` branch). -/
def combineLevel : List (List Nat) → List (List Nat)
  | a :: b :: rest => keccak (a ++ b) :: combineLevel rest
  | [a] => [keccak (a ++ a)]
  | [] => []

/-- The `while branch_nodes.len() > 1` loop of `build`, with explicit fuel:
while the current level has more than one digest, push the combined level and
continue from it.  Any fuel at least the starting level length makes the loop
run to completion, since the level length strictly decreases. -/
def buildLoop : Nat → List (List Nat) → List (List (List Nat)) → List (List (List Nat))
  | 0, _, acc => acc
  | fuel + 1, branch, acc =>
    if branch.length > 1 then
      let nb := combineLevel branch
      buildLoop fuel nb (acc ++ [nb])
    else acc

/-- Leaf hashing (src/lib.rs line 31): each leaf string is hashed by Keccak-256
of its UTF-8 bytes. -/
def leafHashes (leaves : List String) : List (List Nat) :=
  leaves.map (fun leaf => keccak (utf8Bytes leaf))

/-- The `build` function of src/lib.rs: hash the leaves, push the leaf level,
reduce level by level while more than one digest remains, and reverse so the
result is root-first. -/
def build (leaves : List String) : List (List (List Nat)) :=
  let lh := leafHashes leaves
  (buildLoop lh.length lh [lh]).reverse

/-- The `MerkleTree` struct of src/lib.rs. -/
structure MerkleTree where
  leaves : List String
  hashes : List (List (List Nat))

/-- `MerkleTree::new`: store the leaves and the levels computed by `build`. -/
def MerkleTree.new (leaves : List String) : MerkleTree :=
  { leaves := leaves, hashes := build leaves }

/-- `MerkleTree::root_hash`, which evaluates `self.hashes[0][0]`.  Rust panics
when an index is out of bounds; the embedding returns `none` in that case. -/
def MerkleTree.root_hash (t : MerkleTree) : Option (List Nat) :=
  (t.hashes[0]?).bind (fun lvl => lvl[0]?)

/-- The levels generated by the reduction loop after the starting level,
leaf-first.  `buildLoop fuel branch acc` equals `acc ++ levelsFrom fuel branch`
(proved below); this form separates the generated levels from the
accumulator. -/
def levelsFrom : Nat → List (List Nat) → List (List (List Nat))
  | 0, _ => []
  | fuel + 1, branch =>
    if branch.length > 1 then
      combineLevel branch :: levelsFrom fuel (combineLevel branch)
    else []

/-- The lengths of the levels generated by the reduction loop, as a pure
function of the starting length. -/
def lengthsFrom : Nat → Nat → List Nat
  | 0, _ => []
  | fuel + 1, n =>
    if n > 1 then (n + 1) / 2 :: lengthsFrom fuel ((n + 1) / 2)
    else []

lemma laneToBytes_length : ∀ (k v : Nat), (laneToBytes k v).length = k
  | 0, _ => rfl
  | k + 1, v => by simp [laneToBytes, laneToBytes_length k]

lemma keccak_length (msg : List Nat) : (keccak msg).length = 32 := by
  simp [keccak, laneToBytes_length]

lemma leafHashes_length (leaves : List String) :
    (leafHashes leaves).length = leaves.length := by
  simp [leafHashes]

lemma combineLevel_length : ∀ (l : List (List Nat)),
    (combineLevel l).length = (l.length + 1) / 2
  | [] => rfl
  | [a] => by simp [combineLevel]
  | a :: b :: rest => by
    simp only [combineLevel, List.length_cons]
    rw [combineLevel_length rest]
    omega

lemma combineLevel_pair : ∀ (l : List (List Nat)) (j : Nat) (x y : List Nat),
    l[2 * j]? = some x → l[2 * j + 1]? = some y →
    (combineLevel l)[j]? = some (keccak (x ++ y))
  | [], j, x, y, hx, _ => by simp at hx
  | [a], j, x, y, hx, hy => by
    rcases j with _ | j <;> simp at hx hy
  | a :: b :: rest, 0, x, y, hx, hy => by
    simp at hx hy
    simp [combineLevel, hx, hy]
  | a :: b :: rest, j + 1, x, y, hx, hy => by
    have hx2 : rest[2 * j]? = some x := by
      rw [← hx]
      have : 2 * (j + 1) = (2 * j + 1) + 1 := by omega
      rw [this]
      simp
    have hy2 : rest[2 * j + 1]? = some y := by
      rw [← hy]
      have : 2 * (j + 1) + 1 = (2 * j + 1 + 1) + 1 := by omega
      rw [this]
      simp
    simpa [combineLevel] using combineLevel_pair rest j x y hx2 hy2

lemma combineLevel_ne_nil (l : List (List Nat)) (h : l ≠ []) :
    combineLevel l ≠ [] := by
  have hl : 0 < l.length := List.length_pos.mpr h
  have : 0 < (combineLevel l).length := by
    rw [combineLevel_length]
    omega
  exact List.length_pos.mp this

lemma combineLevel_odd_last : ∀ (l : List (List Nat)) (x : List Nat),
    l.length % 2 = 1 → l.getLast? = some x →
    (combineLevel l).getLast? = some (keccak (x ++ x))
  | [], x, hodd, _ => by simp at hodd
  | [a], x, _, hlast => by
    simp at hlast
    simp [combineLevel, hlast]
  | a :: b :: [], x, hodd, hlast => by simp at hodd
  | a :: b :: c :: cs, x, hodd, hlast => by
    have hodd2 : (c :: cs).length % 2 = 1 := by
      simp only [List.length_cons] at hodd ⊢
      omega
    have hlast2 : (c :: cs).getLast? = some x := by
      rw [List.getLast?_cons_cons, List.getLast?_cons_cons] at hlast
      exact hlast
    have ih := combineLevel_odd_last (c :: cs) x hodd2 hlast2
    simp only [combineLevel]
    rw [List.getLast?_cons, ih]
    simp

lemma buildLoop_eq_levelsFrom : ∀ (fuel : Nat) (branch : List (List Nat))
    (acc : List (List (List Nat))),
    buildLoop fuel branch acc = acc ++ levelsFrom fuel branch
  | 0, branch, acc => by simp [buildLoop, levelsFrom]
  | fuel + 1, branch, acc => by
    simp only [buildLoop, levelsFrom]
    by_cases h : branch.length > 1
    · rw [if_pos h, if_pos h, buildLoop_eq_levelsFrom fuel]
      simp
    · rw [if_neg h, if_neg h]
      simp

lemma build_eq (leaves : List String) :
    build leaves =
      (leafHashes leaves ::
        levelsFrom (leafHashes leaves).length (leafHashes leaves)).reverse := by
  simp only [build, buildLoop_eq_levelsFrom]
  rfl

lemma levelsFrom_chain : ∀ (fuel : Nat) (branch : List (List Nat)) (i : Nat)
    (x y : List (List Nat)),
    (branch :: levelsFrom fuel branch)[i]? = some x →
    (branch :: levelsFrom fuel branch)[i + 1]? = some y →
    y = combineLevel x
  | 0, branch, i, x, y, hx, hy => by
    simp [levelsFrom] at hy
  | fuel + 1, branch, i, x, y, hx, hy => by
    simp only [levelsFrom] at hx hy
    by_cases h : branch.length > 1
    · rw [if_pos h] at hx hy
      match i with
      | 0 =>
        simp at hx hy
        rw [← hx, ← hy]
      | i + 1 =>
        rw [List.getElem?_cons_succ] at hx hy
        exact levelsFrom_chain fuel (combineLevel branch) i x y hx hy
    · rw [if_neg h] at hx hy
      rcases i with _ | i <;> simp at hy

lemma levelsFrom_root : ∀ (fuel : Nat) (branch : List (List Nat)),
    1 ≤ branch.length → branch.length ≤ fuel + 1 →
    ((branch :: levelsFrom fuel branch).getLast?).map List.length = some 1
  | 0, branch, h1, h2 => by
    simp only [levelsFrom]
    have : branch.length = 1 := by omega
    simp [this]
  | fuel + 1, branch, h1, h2 => by
    simp only [levelsFrom]
    by_cases h : branch.length > 1
    · rw [if_pos h]
      have hcl : (combineLevel branch).length = (branch.length + 1) / 2 :=
        combineLevel_length branch
      have ih := levelsFrom_root fuel (combineLevel branch)
        (by omega) (by omega)
      rw [List.getLast?_cons_cons]
      exact ih
    · rw [if_neg h]
      have : branch.length = 1 := by omega
      simp [this]

lemma levelsFrom_map_length : ∀ (fuel : Nat) (branch : List (List Nat)),
    (levelsFrom fuel branch).map List.length = lengthsFrom fuel branch.length
  | 0, branch => rfl
  | fuel + 1, branch => by
    simp only [levelsFrom, lengthsFrom]
    by_cases h : branch.length > 1
    · rw [if_pos h, if_pos h]
      simp only [List.map_cons]
      rw [combineLevel_length, levelsFrom_map_length fuel, combineLevel_length]
    · rw [if_neg h, if_neg h]
      rfl

lemma lengthsFrom_one : ∀ (fuel : Nat), lengthsFrom fuel 1 = []
  | 0 => rfl
  | fuel + 1 => by simp [lengthsFrom]

lemma lengthsFrom_two_pow : ∀ (k fuel : Nat), 2 ^ k ≤ fuel + 1 →
    (lengthsFrom fuel (2 ^ k)).length = k
  | 0, fuel, _ => by
    rw [pow_zero, lengthsFrom_one]
    rfl
  | k + 1, fuel, h => by
    have hpos : 1 ≤ 2 ^ k := Nat.one_le_two_pow
    have hsucc : 2 ^ (k + 1) = 2 ^ k * 2 := by rw [pow_succ]
    match fuel with
    | 0 => omega
    | f + 1 =>
      simp only [lengthsFrom]
      rw [if_pos (by omega)]
      have hhalf : (2 ^ (k + 1) + 1) / 2 = 2 ^ k := by omega
      rw [hhalf]
      have ih := lengthsFrom_two_pow k f (by omega)
      simp [ih]

lemma build_getLast (leaves : List String) :
    (build leaves).getLast? = some (leafHashes leaves) := by
  rw [build_eq, List.getLast?_reverse]
  rfl

lemma build_head_length (leaves : List String) (h : leaves ≠ []) :
    (build leaves).head?.map List.length = some 1 := by
  rw [build_eq, List.head?_reverse]
  refine levelsFrom_root (leafHashes leaves).length (leafHashes leaves) ?_ ?_
  · rw [leafHashes_length]
    exact List.length_pos.mpr h
  · omega

lemma build_adjacent (leaves : List String) (i : Nat) (a b : List (List Nat))
    (ha : (build leaves)[i]? = some a) (hb : (build leaves)[i + 1]? = some b) :
    a = combineLevel b := by
  rw [build_eq] at ha hb
  set L := leafHashes leaves ::
    levelsFrom (leafHashes leaves).length (leafHashes leaves) with hL
  have hlt1 : i + 1 < L.length := by
    have := List.getElem?_eq_some_iff.mp hb
    obtain ⟨hlt, _⟩ := this
    simpa using hlt
  have hlt0 : i < L.length := by omega
  rw [List.getElem?_reverse (by simpa using hlt0)] at ha
  rw [List.getElem?_reverse (by simpa using hlt1)] at hb
  have hidx : L.length - 1 - i = (L.length - 1 - (i + 1)) + 1 := by omega
  rw [hidx] at ha
  exact levelsFrom_chain (leafHashes leaves).length (leafHashes leaves)
    (L.length - 1 - (i + 1)) b a hb ha

lemma build_map_length (leaves : List String) :
    (build leaves).map List.length =
      (leaves.length :: lengthsFrom leaves.length leaves.length).reverse := by
  rw [build_eq, List.map_reverse]
  simp only [List.map_cons]
  rw [levelsFrom_map_length, leafHashes_length]

lemma build_length (leaves : List String) :
    (build leaves).length = (lengthsFrom leaves.length leaves.length).length + 1 := by
  have h := congrArg List.length (build_map_length leaves)
  simpa using h

lemma root_hash_of_ne_nil (leaves : List String) (h : leaves ≠ []) :
    ∃ lvl d, (build leaves)[0]? = some lvl ∧ lvl[0]? = some d ∧
      (MerkleTree.new leaves).root_hash = some d := by
  have hh := build_head_length leaves h
  cases hb : (build leaves).head? with
  | none => rw [hb] at hh; simp at hh
  | some lvl =>
    rw [hb] at hh
    have hlen : lvl.length = 1 := by
      simpa using hh
    match lvl, hlen with
    | [d], _ =>
      have h0 : (build leaves)[0]? = some [d] := by
        rw [← List.head?_eq_getElem?]
        exact hb
      refine ⟨[d], d, h0, rfl, ?_⟩
      simp only [MerkleTree.root_hash, MerkleTree.new, h0]
      rfl

/-- Claim C1: `build` combines consecutive non-overlapping pairs left to right.
Whenever two adjacent stored levels are read (root-first indexing), the upper
level is exactly `combineLevel` of the lower one: each full pair `(x, y)` of
the lower level yields the parent `keccak (x ++ y)` (plain concatenation of
the raw digest bytes, no prefix or length field), an odd-length level has its
single unpaired trailing digest `x` combined as `keccak (x ++ x)`, and a lower
level of length n reduces to exactly `(n + 1) / 2 = ceil (n / 2)` parents.
In particular, for a three-leaf tree the parent of the lone third leaf hash is
`keccak (h3 ++ h3)`. -/
theorem build_pairs_and_duplicates (leaves : List String) :
    (∀ i a b, (build leaves)[i]? = some a → (build leaves)[i + 1]? = some b →
      a = combineLevel b ∧
      a.length = (b.length + 1) / 2 ∧
      (∀ j x y, b[2 * j]? = some x → b[2 * j + 1]? = some y →
        a[j]? = some (keccak (x ++ y))) ∧
      (∀ x, b.length % 2 = 1 → b.getLast? = some x →
        a.getLast? = some (keccak (x ++ x)))) ∧
    (∀ s1 s2 s3 lv, (build [s1, s2, s3])[1]? = some lv →
      lv.getLast? = some (keccak (keccak (utf8Bytes s3) ++ keccak (utf8Bytes s3)))) := by
  constructor
  · intro i a b ha hb
    have hab := build_adjacent leaves i a b ha hb
    subst hab
    exact ⟨rfl, combineLevel_length b, fun j x y hx hy => combineLevel_pair b j x y hx hy,
      fun x hodd hlast => combineLevel_odd_last b x hodd hlast⟩
  · intro s1 s2 s3 lv hlv
    have h2 : (build [s1, s2, s3])[1]? =
        some (combineLevel (leafHashes [s1, s2, s3])) := rfl
    rw [hlv] at h2
    have h3 := Option.some.inj h2
    subst h3
    rfl

/-- Witness for C1 at the concrete two-leaf input. -/
theorem build_pairs_and_duplicates_witness :
    (build ["a", "b"])[0]? = some (combineLevel (leafHashes ["a", "b"])) ∧
    (build ["a", "b"])[1]? = some (leafHashes ["a", "b"]) ∧
    (combineLevel (leafHashes ["a", "b"])).length =
      ((leafHashes ["a", "b"]).length + 1) / 2 :=
  ⟨rfl, rfl,
    ((build_pairs_and_duplicates ["a", "b"]).1 0 (combineLevel (leafHashes ["a", "b"]))
      (leafHashes ["a", "b"]) rfl rfl).2.1⟩

/-- Claim C2: for a non-empty leaf list the stored levels are root-first:
the first level has length 1, the last level has as many digests as there are
leaves, and each stored level is `ceil` of half the length of the level at the
next index. -/
theorem levels_root_first (leaves : List String) (h : leaves ≠ []) :
    (build leaves).head?.map List.length = some 1 ∧
    (build leaves).getLast?.map List.length = some leaves.length ∧
    ∀ i a b, (build leaves)[i]? = some a → (build leaves)[i + 1]? = some b →
      a.length = (b.length + 1) / 2 := by
  refine ⟨build_head_length leaves h, ?_, ?_⟩
  · rw [build_getLast]
    simp [leafHashes_length]
  · intro i a b ha hb
    rw [build_adjacent leaves i a b ha hb]
    exact combineLevel_length b

/-- Witness for C2 at the concrete two-leaf input. -/
theorem levels_root_first_witness :
    (build ["a", "b"]).head?.map List.length = some 1 ∧
    (build ["a", "b"]).getLast?.map List.length = some 2 :=
  ⟨(levels_root_first ["a", "b"] (by simp)).1,
   (levels_root_first ["a", "b"] (by simp)).2.1⟩

/-- Claim C3: for every leaf list, the last stored level is exactly the
element-wise Keccak-256 image of the leaves' UTF-8 byte encodings; it has one
digest per leaf, and every digest is 32 bytes. -/
theorem leaf_level_keccak (leaves : List String) :
    (build leaves).getLast? = some (leaves.map (fun s => keccak (utf8Bytes s))) ∧
    (leaves.map (fun s => keccak (utf8Bytes s))).length = leaves.length ∧
    ∀ d ∈ leaves.map (fun s => keccak (utf8Bytes s)), d.length = 32 := by
  refine ⟨build_getLast leaves, by simp, ?_⟩
  intro d hd
  obtain ⟨s, _, rfl⟩ := List.mem_map.mp hd
  exact keccak_length (utf8Bytes s)

/-- Witness for C3 at the concrete one-leaf input. -/
theorem leaf_level_keccak_witness :
    keccak (utf8Bytes "a") ∈ ["a"].map (fun s => keccak (utf8Bytes s)) ∧
    (keccak (utf8Bytes "a")).length = 32 :=
  ⟨by simp, (leaf_level_keccak ["a"]).2.2 (keccak (utf8Bytes "a")) (by simp)⟩

/-- Claim C4 as stated is false on the code: a tree built from the empty leaf
list holds one level (the empty leaf-hash level pushed before the loop), not
zero levels. -/
theorem empty_tree_counterexample :
    ¬ (MerkleTree.new []).hashes.length = 0 := by decide

/-- Claim C4, amended: a tree built from the empty leaf list holds exactly one
level containing zero digests; `root_hash` on it fails (the inner index is out
of bounds) rather than returning a digest; and the empty leaf list is the only
input on which `root_hash` fails. -/
theorem empty_tree_one_empty_level :
    (MerkleTree.new []).hashes = [[]] ∧
    (MerkleTree.new []).root_hash = none ∧
    ∀ leaves, (MerkleTree.new leaves).root_hash = none → leaves = [] := by
  refine ⟨rfl, rfl, ?_⟩
  intro leaves hnone
  by_contra hne
  obtain ⟨lvl, d, _, _, hroot⟩ := root_hash_of_ne_nil leaves hne
  rw [hroot] at hnone
  exact Option.noConfusion hnone

/-- Witness for the amended C4 at the concrete empty input. -/
theorem empty_tree_one_empty_level_witness :
    (MerkleTree.new []).root_hash = none ∧ ([] : List String) = [] :=
  ⟨empty_tree_one_empty_level.2.1, empty_tree_one_empty_level.2.2 [] rfl⟩

/-- Claim C5: on a non-empty leaf list, `build` (a total function in this
embedding) returns levels whose first level is non-empty, so the Rust access
`hashes[0][0]` in `root_hash` is in bounds: the embedded `root_hash` returns
`some` digest.  Purity is inherent to the embedding: both operations are plain
functions of their input. -/
theorem build_total_root_in_bounds (leaves : List String) (h : leaves ≠ []) :
    ∃ lvl d, (build leaves)[0]? = some lvl ∧ lvl[0]? = some d ∧
      (MerkleTree.new leaves).root_hash = some d :=
  root_hash_of_ne_nil leaves h

/-- Witness for C5 at the concrete one-leaf input. -/
theorem build_total_root_in_bounds_witness :
    ∃ lvl d, (build ["a"])[0]? = some lvl ∧ lvl[0]? = some d ∧
      (MerkleTree.new ["a"]).root_hash = some d :=
  build_total_root_in_bounds ["a"] (by simp)

/-- Claim C6: for every non-empty leaf sequence, the leaf level has one digest
per leaf and the root level has exactly one digest; when the number of leaves
is `2 ^ k` the number of levels is `k + 1` (that is, `ceil (log2 n) + 1`);
and the two reproduced scenarios hold: four leaves give root-to-leaf level
lengths `[1, 2, 4]`, five leaves give `[1, 2, 3, 5]`. -/
theorem level_count_properties (leaves : List String) (h : leaves ≠ []) :
    (build leaves).getLast?.map List.length = some leaves.length ∧
    (build leaves).head?.map List.length = some 1 ∧
    (∀ k, leaves.length = 2 ^ k → (build leaves).length = k + 1) ∧
    (build ["a", "b", "c", "d"]).map List.length = [1, 2, 4] ∧
    (build ["a", "b", "c", "d", "e"]).map List.length = [1, 2, 3, 5] := by
  refine ⟨?_, build_head_length leaves h, ?_, ?_, ?_⟩
  · rw [build_getLast]
    simp [leafHashes_length]
  · intro k hk
    rw [build_length, hk, lengthsFrom_two_pow k (2 ^ k) (by omega)]
  · rw [build_map_length]
    rfl
  · rw [build_map_length]
    rfl

/-- Witness for C6 at the concrete four-leaf input. -/
theorem level_count_properties_witness :
    (build ["a", "b", "c", "d"]).length = 2 + 1 ∧
    (build ["a", "b", "c", "d"]).map List.length = [1, 2, 4] :=
  ⟨(level_count_properties ["a", "b", "c", "d"] (by simp)).2.2.1 2 (by rfl),
   (level_count_properties ["a", "b", "c", "d"] (by simp)).2.2.2.1⟩

/-- Claim C7: determinism.  `build` and `root_hash` are functions of the leaf
list alone, so identical leaf sequences yield identical level hierarchies and
identical roots, and reading `root_hash` twice from the same tree gives the
same bytes. -/
theorem build_deterministic (l1 l2 : List String) (h : l1 = l2) :
    build l1 = build l2 ∧
    (MerkleTree.new l1).root_hash = (MerkleTree.new l2).root_hash ∧
    ∀ t : MerkleTree, t.root_hash = t.root_hash := by
  subst h
  exact ⟨rfl, rfl, fun t => rfl⟩

/-- Witness for C7 at a concrete input. -/
theorem build_deterministic_witness :
    build ["a"] = build ["a"] ∧
    (MerkleTree.new ["a"]).root_hash = (MerkleTree.new ["a"]).root_hash :=
  ⟨(build_deterministic ["a"] ["a"] rfl).1, (build_deterministic ["a"] ["a"] rfl).2.1⟩

/-- Claim C10: a one-leaf tree has exactly one level holding the single leaf
digest, and the root is that leaf digest itself: the duplicate-and-pair rule
is never applied, so the root is `keccak (utf8Bytes s)`, not the hash of the
leaf digest paired with itself. -/
theorem single_leaf_root (s : String) :
    build [s] = [[keccak (utf8Bytes s)]] ∧
    (MerkleTree.new [s]).root_hash = some (keccak (utf8Bytes s)) :=
  ⟨rfl, rfl⟩

set_option maxHeartbeats 16000000 in
/-- Claim C8: order sensitivity.  Building the five leaves in the order
a, b, c, d, e and in the order b, a, c, d, e yields different root digests,
although the two lists are the same multiset. -/
theorem root_order_sensitive :
    (MerkleTree.new ["a", "b", "c", "d", "e"]).root_hash ≠
      (MerkleTree.new ["b", "a", "c", "d", "e"]).root_hash := by
  decide

set_option maxHeartbeats 16000000 in
/-- Claim C9: value sensitivity.  Building the leaves a, b, c, d, e and the
leaves a, b, c, d, f yields different root digests. -/
theorem root_value_sensitive :
    (MerkleTree.new ["a", "b", "c", "d", "e"]).root_hash ≠
      (MerkleTree.new ["a", "b", "c", "d", "f"]).root_hash := by
  decide
